import Mathlib

/-!
Verification of the soft-alias-properties synchronization core.

The TypeScript source keeps a friendly alias property (e.g. `priority`)
synchronized into a folder-scoped namespaced storage key
(e.g. `projects__priority`) in a document's frontmatter map.  This file
embeds the core pure logic — key formatting, rule resolution, the sync
transform inside `normalizeFileNow`, the `computeNeedsNormalization`
pre-check, the restore transform, the template transform, the in-flight
guard of `normalizeFileNow` and the bulk-restore loop — as executable
Lean definitions, and proves or refutes the specified properties.

JavaScript string methods (`trim`, `split`, `replace`, `startsWith`,
`endsWith`) are modelled by structurally recursive functions over the
character list of a `String`, so every definition evaluates inside the
kernel.  JavaScript objects holding frontmatter are modelled as
`String → Option Val`: `hasOwnProperty` is `Option.isSome`, assignment
is pointwise update, `delete` is pointwise removal.
-/

/-- A frontmatter value: YAML scalars that occur in the plugin's data
    (strings, numbers, booleans and null). -/
inductive Val where
  | vnull
  | vstr (s : String)
  | vnum (n : Int)
  | vbool (b : Bool)
deriving DecidableEq

/-- A frontmatter map: a JavaScript object from property names to values.
    `none` means the key is absent (`hasOwnProperty` false). -/
abbrev Fm := String → Option Val

/-- The empty frontmatter object `{}`. -/
def Fm.empty : Fm := fun _ => none

/-- JavaScript property assignment `fm[k] = v`. -/
def Fm.set (fm : Fm) (k : String) (v : Val) : Fm :=
  fun q => if q = k then some v else fm q

/-- JavaScript `delete fm[k]`. -/
def Fm.del (fm : Fm) (k : String) : Fm :=
  fun q => if q = k then none else fm q

/-- Model of JavaScript `String.prototype.trim`: drop whitespace from
    both ends. -/
def jsTrim (s : String) : String :=
  String.mk ((((s.data.dropWhile Char.isWhitespace).reverse.dropWhile
    Char.isWhitespace).reverse))

/-- Model of `path.replace(/\\/g, "/")`: replace every backslash by a
    forward slash. -/
def normSlashes (s : String) : String :=
  String.mk (s.data.map (fun c => if c = '\\' then '/' else c))

/-- Model of JavaScript `String.prototype.startsWith`. -/
def strStartsWith (s p : String) : Bool :=
  p.data.isPrefixOf s.data

/-- Model of JavaScript `String.prototype.endsWith`. -/
def strEndsWith (s p : String) : Bool :=
  p.data.reverse.isPrefixOf s.data.reverse

/-- Helper of `splitCommas`: accumulates the current piece (reversed). -/
def splitCommaAux : List Char → List Char → List String
  | [], acc => [String.mk acc.reverse]
  | c :: rest, acc =>
      if c = ',' then String.mk acc.reverse :: splitCommaAux rest []
      else splitCommaAux rest (c :: acc)

/-- Model of JavaScript `raw.split(",")`. -/
def splitCommas (s : String) : List String :=
  splitCommaAux s.data []

/-- Source `parseManagedKeys`: split the comma-separated configuration
    string, trim each piece, drop empties.  Duplicates are kept. -/
def parseManagedKeys (raw : String) : List String :=
  ((splitCommas raw).map jsTrim).filter (fun s => s != "")

/-- Source `normalizePrefix`: trim, convert backslashes to slashes, and
    ensure a trailing `/`; an all-whitespace input yields `""`. -/
def normalizePrefix (p0 : String) : String :=
  let p := jsTrim p0
  if p = "" then ""
  else
    let n := normSlashes p
    if strEndsWith n "/" then n else n ++ "/"

/-- Process-wide storage-key configuration (`storagePrefix`,
    `storageSeparator` of the settings). -/
structure StorageKeyConfig where
  storagePrefix : String
  storageSeparator : String
deriving DecidableEq

/-- The separator actually used by `makeStorageKey`: source expression
    `(settings.storageSeparator || "__").trim() || "__"`. -/
def sepOf (cfg : StorageKeyConfig) : String :=
  let s0 := if cfg.storageSeparator = "" then "__" else jsTrim cfg.storageSeparator
  if s0 = "" then "__" else s0

/-- Source `makeStorageKey`: `prefix + slug + sep + aliasKey` with the
    trimmed storage prefix. -/
def makeStorageKey (cfg : StorageKeyConfig) (slug aliasKey : String) : String :=
  jsTrim cfg.storagePrefix ++ slug ++ sepOf cfg ++ aliasKey

/-- A folder rule of the settings. -/
structure FolderRule where
  folderPrefix : String
  namespaceSlug : String
  templateEnabled : Bool
  templateYaml : String

/-- The loop body of source `getNamespaceSlugForFile`: scan the rules in
    order, skip inert rules (empty normalized folder prefix or empty
    trimmed slug), return the first trimmed slug whose normalized folder
    prefix is a literal prefix of the path. -/
def slugScan (path : String) : List FolderRule → Option String
  | [] => none
  | r :: rs =>
      let pfx := normalizePrefix r.folderPrefix
      let slug := jsTrim r.namespaceSlug
      if pfx = "" ∨ slug = "" then slugScan path rs
      else if strStartsWith path pfx then some slug
      else slugScan path rs

/-- Source `getNamespaceSlugForFile`: normalize the path separators and
    scan the ordered rule list. -/
def getNamespaceSlugForFile (rules : List FolderRule) (path0 : String) : Option String :=
  slugScan (normSlashes path0) rules

/-- The loop body of source `getRuleForFile` (same scan, returning the
    whole rule). -/
def ruleScan (path : String) : List FolderRule → Option FolderRule
  | [] => none
  | r :: rs =>
      let pfx := normalizePrefix r.folderPrefix
      let slug := jsTrim r.namespaceSlug
      if pfx = "" ∨ slug = "" then ruleScan path rs
      else if strStartsWith path pfx then some r
      else ruleScan path rs

/-- Source `getRuleForFile`. -/
def getRuleForFile (rules : List FolderRule) (path0 : String) : Option FolderRule :=
  ruleScan (normSlashes path0) rules

/-- One iteration of the frontmatter mutator inside source
    `normalizeFileNow` (lines 1118-1141), for one managed alias key:
    if the storage key exists, optionally delete the plain alias key
    (removal policy); otherwise, if the alias key exists, copy its value
    to the storage key and optionally delete the alias key. -/
def syncStep (cfg : StorageKeyConfig) (slug : String) (r : Bool) (fm : Fm)
    (aliasKey : String) : Fm :=
  let storageKey := makeStorageKey cfg slug aliasKey
  if (fm storageKey).isSome then
    if r && (fm aliasKey).isSome then Fm.del fm aliasKey else fm
  else
    match fm aliasKey with
    | some v =>
        let fm1 := Fm.set fm storageKey v
        if r then Fm.del fm1 aliasKey else fm1
    | none => fm

/-- The full frontmatter mutator of source `normalizeFileNow`
    (`applySync` of the specification): iterate `syncStep` over the
    managed keys, in list order. -/
def applySync (cfg : StorageKeyConfig) (slug : String) (managed : List String)
    (r : Bool) (fm : Fm) : Fm :=
  managed.foldl (syncStep cfg slug r) fm

/-- The per-key condition tested by source
    `computeNeedsNormalization`. -/
def needsKey (cfg : StorageKeyConfig) (r : Bool) (fm : Fm) (slug k : String) : Bool :=
  let storageKey := makeStorageKey cfg slug k
  (!(fm storageKey).isSome && (fm k).isSome) ||
    ((fm storageKey).isSome && (fm k).isSome && r)

/-- Source `computeNeedsNormalization` (the `needsSync` pre-check):
    true if some managed key needs work.  `r` is the
    `removePlainAliasKeysOnSync` setting read inside the loop. -/
def computeNeedsNormalization (cfg : StorageKeyConfig) (r : Bool) (fm : Fm)
    (slug : String) (managed : List String) : Bool :=
  managed.any (needsKey cfg r fm slug)

/-- One iteration of the frontmatter mutator inside source
    `restoreAliasesForFile`: if the storage key exists, copy its value
    back to the alias key, then delete the storage key when the
    `deleteStorageKeysOnRestore` flag is set. -/
def restoreStep (cfg : StorageKeyConfig) (slug : String) (del : Bool) (fm : Fm)
    (aliasKey : String) : Fm :=
  let storageKey := makeStorageKey cfg slug aliasKey
  match fm storageKey with
  | none => fm
  | some v =>
      let fm1 := Fm.set fm aliasKey v
      if del then Fm.del fm1 storageKey else fm1

/-- The full restore mutator (`restoreAliases` of the specification). -/
def restoreAliases (cfg : StorageKeyConfig) (slug : String) (managed : List String)
    (del : Bool) (fm : Fm) : Fm :=
  managed.foldl (restoreStep cfg slug del) fm

/-- One iteration of the frontmatter mutator inside source
    `applyTemplateToNewFile`, for one declared `(key, value)` entry of
    the parsed template: skip blank keys; when the managed set is
    non-empty restrict to managed keys; skip when the storage key
    already exists; otherwise set the storage key to the declared value,
    and, when the removal policy is off, also set the plain alias key if
    absent. -/
def templateStep (cfg : StorageKeyConfig) (slug : String) (managed : List String)
    (r : Bool) (fm : Fm) (entry : String × Val) : Fm :=
  let aliasKey := jsTrim entry.1
  if aliasKey = "" then fm
  else if managed ≠ [] ∧ aliasKey ∉ managed then fm
  else
    let storageKey := makeStorageKey cfg slug aliasKey
    if (fm storageKey).isSome then fm
    else
      let fm1 := Fm.set fm storageKey entry.2
      if r then fm1
      else if (fm1 aliasKey).isSome then fm1 else Fm.set fm1 aliasKey entry.2

/-- The full template mutator of source `applyTemplateToNewFile`
    (`applyTemplate` of the specification), over the parsed template's
    entries in declaration order. -/
def applyTemplate (cfg : StorageKeyConfig) (slug : String)
    (entries : List (String × Val)) (managed : List String) (r : Bool)
    (fm : Fm) : Fm :=
  entries.foldl (templateStep cfg slug managed r) fm

/-- A vault markdown file as the core sees it: a path, the document's
    frontmatter, the metadata-cache snapshot of that frontmatter, and
    whether the `processFrontMatter` read-modify-write for this file
    rejects. -/
structure VFile where
  path : String
  fm : Fm
  cacheFm : Fm
  rmwRejects : Bool

/-- Source `restoreAliasesForFile`: resolve the rule, early-return on no
    rule / empty managed list / in-flight path; otherwise run the
    read-modify-write, which either rejects (the rejection propagates)
    or yields the restored frontmatter.  The in-flight flag is released
    on both exits, leaving `inflight` unchanged, so it is not part of
    the result. -/
def restoreAliasesForFile (cfg : StorageKeyConfig) (rules : List FolderRule)
    (managedRaw : String) (del : Bool) (inflight : List String) (f : VFile) :
    Except String Fm :=
  match getRuleForFile rules f.path with
  | none => .ok f.fm
  | some rule =>
      let slug := jsTrim rule.namespaceSlug
      let managed := parseManagedKeys managedRaw
      if managed = [] then .ok f.fm
      else if f.path ∈ inflight then .ok f.fm
      else if f.rmwRejects then .error ("processFrontMatter rejected: " ++ f.path)
      else .ok (restoreAliases cfg slug managed del f.fm)

/-- Source `restoreAliasesForAllScopedFiles`: iterate the vault's
    markdown files; skip files with no rule; await the per-file restore
    (a rejection propagates out of the loop, aborting it); count each
    awaited file. -/
def restoreAllScoped (cfg : StorageKeyConfig) (rules : List FolderRule)
    (managedRaw : String) (del : Bool) : List VFile → Nat → Except String Nat
  | [], count => .ok count
  | f :: fs, count =>
      match getRuleForFile rules f.path with
      | none => restoreAllScoped cfg rules managedRaw del fs count
      | some _ =>
          match restoreAliasesForFile cfg rules managedRaw del [] f with
          | .error e => .error e
          | .ok _ => restoreAllScoped cfg rules managedRaw del fs (count + 1)

/-- Source `normalizeFileNow`: resolve the slug, drop the trigger when
    the path is already in-flight, early-return on an empty managed list
    or when the cache snapshot needs no work; otherwise add the path to
    the in-flight set, run the read-modify-write (success applies the
    sync mutator, failure rejects) and — the `finally` block — remove
    the path from the in-flight set on both exits.  Returns the
    operation's outcome and the final in-flight set. -/
def normalizeFileNow (cfg : StorageKeyConfig) (rules : List FolderRule)
    (managedRaw : String) (r : Bool) (inflight : List String) (f : VFile) :
    Except String Fm × List String :=
  match getNamespaceSlugForFile rules f.path with
  | none => (.ok f.fm, inflight)
  | some slug =>
      if f.path ∈ inflight then (.ok f.fm, inflight)
      else
        let managed := parseManagedKeys managedRaw
        if managed = [] then (.ok f.fm, inflight)
        else if !(computeNeedsNormalization cfg r f.cacheFm slug managed) then
          (.ok f.fm, inflight)
        else
          let acquired := f.path :: inflight
          let res : Except String Fm :=
            if f.rmwRejects then .error ("processFrontMatter rejected: " ++ f.path)
            else .ok (applySync cfg slug managed r f.fm)
          (res, acquired.erase f.path)

/-- The collision-freedom hypothesis isolating the intended use of the
    managed-key list: no managed alias key is itself the storage key of
    a managed alias key.  With the default separator `"__"` this holds
    for every ordinary key list, and it is exactly what the adversarial
    counterexamples below violate. -/
def NoCollision (cfg : StorageKeyConfig) (slug : String) (K : List String) : Prop :=
  ∀ k1 ∈ K, ∀ k2 ∈ K, makeStorageKey cfg slug k1 ≠ k2

/-- Default-like storage configuration used by concrete scenarios. -/
def cfg0 : StorageKeyConfig := ⟨"", "__"⟩

/-- Weight of a key, strictly decreasing in the key's length. -/
def keyWeight (k : String) : ℚ := ((1:ℚ)/2) ^ k.length

/-- Total weight of the keys of `κ` present in `fm`. -/
def fmWeight (κ : Finset String) (fm : Fm) : ℚ :=
  ∑ k ∈ κ, (if (fm k).isSome then keyWeight k else 0)

/-- Spec-side restatement of rule resolution (claim C6): drop the inert
    rules (those whose trimmed folder prefix or trimmed namespace slug is
    empty), then return the trimmed slug of the first surviving rule whose
    normalized folder prefix is a literal prefix of the
    separator-normalized path; `none` when no rule matches. -/
def resolveRuleSpec (rules : List FolderRule) (path0 : String) : Option String :=
  let path := normSlashes path0
  ((rules.filter (fun r =>
      !(jsTrim r.folderPrefix == "") && !(jsTrim r.namespaceSlug == ""))).find?
        (fun r => strStartsWith path (normalizePrefix r.folderPrefix))).map
    (fun r => jsTrim r.namespaceSlug)

/-- Concrete frontmatter `{n__a: "x", n__n__a: "z", a: "y"}` (storage key
    `n__a` of alias `a` present, and `n__a` itself managed). -/
def fmColl : Fm := fun k =>
  if k = "n__a" then some (Val.vstr "x")
  else if k = "n__n__a" then some (Val.vstr "z")
  else if k = "a" then some (Val.vstr "y")
  else none

/-- Concrete frontmatter `{a: "w"}`. -/
def fmA : Fm := fun k => if k = "a" then some (Val.vstr "w") else none

/-- Concrete frontmatter `{n__a: "x", a: "y"}` (storage key of `a`
    already present with a different value than the alias). -/
def fmPre : Fm := fun k =>
  if k = "n__a" then some (Val.vstr "x")
  else if k = "a" then some (Val.vstr "y")
  else none

/-- Concrete frontmatter `{priority: null}`. -/
def fmNull : Fm := fun k => if k = "priority" then some Val.vnull else none

/-- Concrete frontmatter `{priority: "high"}`. -/
def fmHigh : Fm := fun k => if k = "priority" then some (Val.vstr "high") else none

/-- A concrete folder rule scoping `docs/` to namespace `n`. -/
def ruleDocs : FolderRule := ⟨"docs/", "n", false, ""⟩

/-- Concrete rules for the priority scenario of claim C6. -/
def ruleA : FolderRule := ⟨"a/", "s1", false, ""⟩

/-- The more specific rule listed second in the C6 scenario. -/
def ruleAB : FolderRule := ⟨"a/b/", "s2", false, ""⟩

/-- A scoped file whose read-modify-write rejects. -/
def fileFail : VFile := ⟨"docs/one.md", fmHigh, fmHigh, true⟩

/-- A scoped file whose read-modify-write succeeds. -/
def fileOk : VFile := ⟨"docs/two.md", fmHigh, fmHigh, false⟩

/-- The template of the claim C10 scenario, in declaration order. -/
def entriesT : List (String × Val) :=
  [("priority", Val.vstr "medium"), ("status", Val.vstr "draft"), ("owner", Val.vnull)]

/-! ### Basic facts about the embedding -/

theorem Fm.set_apply (fm : Fm) (k : String) (v : Val) (q : String) :
    Fm.set fm k v q = if q = k then some v else fm q := rfl

theorem Fm.del_apply (fm : Fm) (k q : String) :
    Fm.del fm k q = if q = k then none else fm q := rfl

theorem String.data_app (s t : String) : (s ++ t).data = s.data ++ t.data := by
  cases s; cases t; rfl

theorem String.eq_of_data_eq {s t : String} (h : s.data = t.data) : s = t := by
  cases s; cases t; simp_all

theorem String.length_pos_of_ne_empty {s : String} (h : s ≠ "") : 0 < s.length := by
  refine List.length_pos.mpr (fun hd => h ?_)
  exact String.eq_of_data_eq (by simpa using hd)

theorem sepOf_ne_empty (cfg : StorageKeyConfig) : sepOf cfg ≠ "" := by
  unfold sepOf
  by_cases h : (if cfg.storageSeparator = "" then "__" else jsTrim cfg.storageSeparator) = ""
  · simp only [h, if_pos rfl]
    decide
  · simp only [if_neg h]
    exact h

theorem length_lt_makeStorageKey (cfg : StorageKeyConfig) (slug k : String) :
    k.length < (makeStorageKey cfg slug k).length := by
  have hsep : 0 < (sepOf cfg).length := String.length_pos_of_ne_empty (sepOf_ne_empty cfg)
  show k.length < (jsTrim cfg.storagePrefix ++ slug ++ sepOf cfg ++ k).length
  have hd : (jsTrim cfg.storagePrefix ++ slug ++ sepOf cfg ++ k).data
      = (jsTrim cfg.storagePrefix).data ++ slug.data ++ (sepOf cfg).data ++ k.data := by
    simp [String.data_app]
  show k.length < (jsTrim cfg.storagePrefix ++ slug ++ sepOf cfg ++ k).data.length
  rw [hd]
  simp only [List.length_append]
  have h1 : 0 < (sepOf cfg).data.length := hsep
  have h2 : k.length = k.data.length := rfl
  omega

theorem makeStorageKey_ne_self (cfg : StorageKeyConfig) (slug k : String) :
    makeStorageKey cfg slug k ≠ k := by
  intro h
  have := length_lt_makeStorageKey cfg slug k
  rw [h] at this
  omega

theorem makeStorageKey_inj (cfg : StorageKeyConfig) (slug : String) {k1 k2 : String}
    (h : makeStorageKey cfg slug k1 = makeStorageKey cfg slug k2) : k1 = k2 := by
  have hd := congrArg String.data h
  simp only [makeStorageKey, String.data_app, List.append_assoc] at hd
  exact String.eq_of_data_eq
    (List.append_cancel_left (List.append_cancel_left (List.append_cancel_left hd)))

/-! ### The sync transform: characterizing when it does nothing -/

theorem syncStep_eq_of_needsKey_false (cfg : StorageKeyConfig) (slug : String)
    (r : Bool) (fm : Fm) (k : String)
    (h : needsKey cfg r fm slug k = false) : syncStep cfg slug r fm k = fm := by
  cases hsk : fm (makeStorageKey cfg slug k) with
  | some v =>
      cases hk : fm k with
      | some w =>
          have hr : r = false := by
            simpa [needsKey, hsk, hk] using h
          simp [syncStep, hsk, hk, hr]
      | none => simp [syncStep, hsk, hk]
  | none =>
      cases hk : fm k with
      | some w => simp [needsKey, hsk, hk] at h
      | none => simp [syncStep, hsk, hk]

theorem applySync_eq_of_needs_false (cfg : StorageKeyConfig) (slug : String)
    (r : Bool) (K : List String) :
    ∀ fm : Fm, (∀ k ∈ K, needsKey cfg r fm slug k = false) →
      applySync cfg slug K r fm = fm := by
  induction K with
  | nil => intro fm _; rfl
  | cons k K ih =>
      intro fm h
      have h0 : syncStep cfg slug r fm k = fm :=
        syncStep_eq_of_needsKey_false cfg slug r fm k (h k (List.mem_cons_self k K))
      have hstep : applySync cfg slug (k :: K) r fm
          = applySync cfg slug K r (syncStep cfg slug r fm k) := rfl
      rw [hstep, h0]
      exact ih fm (fun q hq => h q (List.mem_cons_of_mem k hq))

theorem applySync_eq_of_not_needs (cfg : StorageKeyConfig) (slug : String)
    (r : Bool) (K : List String) (fm : Fm)
    (h : computeNeedsNormalization cfg r fm slug K = false) :
    applySync cfg slug K r fm = fm := by
  refine applySync_eq_of_needs_false cfg slug r K fm (fun k hk => ?_)
  simpa using List.any_eq_false.mp h k hk

/-! ### Monotonicity of the sync transform when removal is off -/

theorem syncStep_mono (cfg : StorageKeyConfig) (slug : String) (fm : Fm) (k x : String)
    (h : (fm x).isSome = true) : ((syncStep cfg slug false fm k) x).isSome = true := by
  cases hsk : (fm (makeStorageKey cfg slug k)).isSome with
  | true => simpa [syncStep, hsk] using h
  | false =>
      cases hk : fm k with
      | none => simpa [syncStep, hsk, hk] using h
      | some v =>
          simp only [syncStep, hsk, hk, Bool.false_eq_true, if_false]
          simp only [Fm.set_apply]
          by_cases hx : x = makeStorageKey cfg slug k <;> simp [hx, h]

theorem applySync_mono (cfg : StorageKeyConfig) (slug : String) (K : List String) :
    ∀ (fm : Fm) (x : String), (fm x).isSome = true →
      ((applySync cfg slug K false fm) x).isSome = true := by
  induction K with
  | nil => intro fm x h; exact h
  | cons k K ih =>
      intro fm x h
      exact ih (syncStep cfg slug false fm k) x (syncStep_mono cfg slug fm k x h)

theorem applySync_creates_of_alias (cfg : StorageKeyConfig) (slug : String)
    (K : List String) :
    ∀ (fm : Fm) (k : String), k ∈ K → (fm k).isSome = true →
      ((applySync cfg slug K false fm) (makeStorageKey cfg slug k)).isSome = true := by
  induction K with
  | nil => intro fm k hk _; cases hk
  | cons k' K ih =>
      intro fm k hk hA
      by_cases he : k' = k
      · subst he
        have hstep : ((syncStep cfg slug false fm k') (makeStorageKey cfg slug k')).isSome
            = true := by
          cases hsk : (fm (makeStorageKey cfg slug k')).isSome with
          | true => simp [syncStep, hsk]
          | false =>
              cases hkk : fm k' with
              | none => rw [hkk] at hA; cases hA
              | some v => simp [syncStep, hsk, hkk, Fm.set_apply]
        exact applySync_mono cfg slug K (syncStep cfg slug false fm k') _ hstep
      · have hk2 : k ∈ K := by
          rcases List.mem_cons.mp hk with h | h
          · exact absurd h.symm he
          · exact h
        exact ih (syncStep cfg slug false fm k') k hk2 (syncStep_mono cfg slug fm k' k hA)

/-! ### A weight measure strictly decreased by every acting sync step
    when removal is on.  Storage keys are strictly longer than their
    alias keys, so moving a value from an alias key to a storage key
    always lowers the total weight of the present keys. -/

theorem keyWeight_pos (k : String) : 0 < keyWeight k :=
  pow_pos (by norm_num) _

theorem keyWeight_lt {k1 k2 : String} (h : k1.length < k2.length) :
    keyWeight k2 < keyWeight k1 :=
  pow_lt_pow_right_of_lt_one₀ (by norm_num) (by norm_num) h

theorem fmWeight_del (κ : Finset String) (fm : Fm) (k0 : String)
    (h0 : k0 ∈ κ) (hs : (fm k0).isSome = true) :
    fmWeight κ (Fm.del fm k0) = fmWeight κ fm - keyWeight k0 := by
  unfold fmWeight
  rw [← Finset.add_sum_erase κ _ h0, ← Finset.add_sum_erase κ _ h0]
  have t1 : (if ((Fm.del fm k0) k0).isSome then keyWeight k0 else 0) = 0 := by
    simp [Fm.del_apply]
  have t2 : (if (fm k0).isSome then keyWeight k0 else 0) = keyWeight k0 := by
    simp [hs]
  have t3 : ∀ x ∈ κ.erase k0,
      (if ((Fm.del fm k0) x).isSome then keyWeight x else 0)
        = (if (fm x).isSome then keyWeight x else 0) := by
    intro x hx
    have hne : x ≠ k0 := Finset.ne_of_mem_erase hx
    simp [Fm.del_apply, hne]
  rw [t1, t2, Finset.sum_congr rfl t3]
  ring

theorem fmWeight_set (κ : Finset String) (fm : Fm) (S : String) (v : Val)
    (hnone : fm S = none) :
    fmWeight κ (Fm.set fm S v)
      = fmWeight κ fm + (if S ∈ κ then keyWeight S else 0) := by
  by_cases hS : S ∈ κ
  · rw [if_pos hS]
    unfold fmWeight
    rw [← Finset.add_sum_erase κ _ hS, ← Finset.add_sum_erase κ _ hS]
    have t1 : (if ((Fm.set fm S v) S).isSome then keyWeight S else 0) = keyWeight S := by
      simp [Fm.set_apply]
    have t2 : (if (fm S).isSome then keyWeight S else 0) = 0 := by
      simp [hnone]
    have t3 : ∀ x ∈ κ.erase S,
        (if ((Fm.set fm S v) x).isSome then keyWeight x else 0)
          = (if (fm x).isSome then keyWeight x else 0) := by
      intro x hx
      have hne : x ≠ S := Finset.ne_of_mem_erase hx
      simp [Fm.set_apply, hne]
    rw [t1, t2, Finset.sum_congr rfl t3]
    ring
  · rw [if_neg hS, add_zero]
    refine Finset.sum_congr rfl (fun x hx => ?_)
    have hne : x ≠ S := fun h => hS (h ▸ hx)
    simp [Fm.set_apply, hne]

theorem syncStep_weight_lt (cfg : StorageKeyConfig) (slug : String)
    (κ : Finset String) (fm : Fm) (k0 : String)
    (hk : k0 ∈ κ) (hA : (fm k0).isSome = true) :
    fmWeight κ (syncStep cfg slug true fm k0) < fmWeight κ fm := by
  cases hsk : (fm (makeStorageKey cfg slug k0)).isSome with
  | true =>
      have hstep : syncStep cfg slug true fm k0 = Fm.del fm k0 := by
        simp [syncStep, hsk, hA]
      rw [hstep, fmWeight_del κ fm k0 hk hA]
      have := keyWeight_pos k0
      linarith
  | false =>
      cases hkk : fm k0 with
      | none => rw [hkk] at hA; cases hA
      | some v =>
          have hstep : syncStep cfg slug true fm k0
              = Fm.del (Fm.set fm (makeStorageKey cfg slug k0) v) k0 := by
            simp [syncStep, hsk, hkk]
          have hSnone : fm (makeStorageKey cfg slug k0) = none := by
            cases hfs : fm (makeStorageKey cfg slug k0) with
            | none => rfl
            | some w => rw [hfs] at hsk; cases hsk
          have hne : k0 ≠ makeStorageKey cfg slug k0 :=
            fun h => (makeStorageKey_ne_self cfg slug k0) h.symm
          have h2 : ((Fm.set fm (makeStorageKey cfg slug k0) v) k0).isSome = true := by
            simp [Fm.set_apply, hne, hkk]
          rw [hstep, fmWeight_del κ _ k0 hk h2, fmWeight_set κ fm _ v hSnone]
          have hw : (if makeStorageKey cfg slug k0 ∈ κ
              then keyWeight (makeStorageKey cfg slug k0) else 0) < keyWeight k0 := by
            split
            · exact keyWeight_lt (length_lt_makeStorageKey cfg slug k0)
            · exact keyWeight_pos k0
          linarith

theorem syncStep_weight_le (cfg : StorageKeyConfig) (slug : String)
    (κ : Finset String) (fm : Fm) (k0 : String) (hk : k0 ∈ κ) :
    fmWeight κ (syncStep cfg slug true fm k0) ≤ fmWeight κ fm := by
  cases hA : (fm k0).isSome with
  | true => exact le_of_lt (syncStep_weight_lt cfg slug κ fm k0 hk hA)
  | false =>
      have hstep : syncStep cfg slug true fm k0 = fm :=
        syncStep_eq_of_needsKey_false cfg slug true fm k0 (by simp [needsKey, hA])
      rw [hstep]

theorem applySync_weight_le (cfg : StorageKeyConfig) (slug : String)
    (κ : Finset String) (K : List String) :
    ∀ fm : Fm, (∀ k ∈ K, k ∈ κ) →
      fmWeight κ (applySync cfg slug K true fm) ≤ fmWeight κ fm := by
  induction K with
  | nil => intro fm _; exact le_refl _
  | cons k K ih =>
      intro fm hκ
      calc fmWeight κ (applySync cfg slug (k :: K) true fm)
          = fmWeight κ (applySync cfg slug K true (syncStep cfg slug true fm k)) := rfl
        _ ≤ fmWeight κ (syncStep cfg slug true fm k) :=
            ih _ (fun x hx => hκ x (List.mem_cons_of_mem k hx))
        _ ≤ fmWeight κ fm :=
            syncStep_weight_le cfg slug κ fm k (hκ k (List.mem_cons_self k K))

theorem applySync_weight_lt (cfg : StorageKeyConfig) (slug : String)
    (κ : Finset String) (K : List String) :
    ∀ fm : Fm, (∀ k ∈ K, k ∈ κ) → (∃ k ∈ K, (fm k).isSome = true) →
      fmWeight κ (applySync cfg slug K true fm) < fmWeight κ fm := by
  induction K with
  | nil =>
      rintro fm _ ⟨k, hk, _⟩
      cases hk
  | cons k' K ih =>
      rintro fm hκ ⟨k, hk, hA⟩
      by_cases hA' : (fm k').isSome = true
      · calc fmWeight κ (applySync cfg slug (k' :: K) true fm)
            = fmWeight κ (applySync cfg slug K true (syncStep cfg slug true fm k')) := rfl
          _ ≤ fmWeight κ (syncStep cfg slug true fm k') :=
              applySync_weight_le cfg slug κ K _ (fun x hx => hκ x (List.mem_cons_of_mem k' hx))
          _ < fmWeight κ fm :=
              syncStep_weight_lt cfg slug κ fm k' (hκ k' (List.mem_cons_self k' K)) hA'
      · have hA'f : (fm k').isSome = false := by
          cases hv : (fm k').isSome with
          | true => exact absurd hv hA'
          | false => rfl
        have hstep : syncStep cfg slug true fm k' = fm :=
          syncStep_eq_of_needsKey_false cfg slug true fm k' (by simp [needsKey, hA'f])
        have hkK : k ∈ K := by
          rcases List.mem_cons.mp hk with h | h
          · rw [h] at hA; rw [hA] at hA'f; cases hA'f
          · exact h
        have hred : applySync cfg slug (k' :: K) true fm = applySync cfg slug K true fm := by
          show applySync cfg slug K true (syncStep cfg slug true fm k') = _
          rw [hstep]
        rw [hred]
        exact ih fm (fun x hx => hκ x (List.mem_cons_of_mem k' hx)) ⟨k, hkK, hA⟩

theorem needsKey_true_eq (cfg : StorageKeyConfig) (fm : Fm) (slug k : String) :
    needsKey cfg true fm slug k = (fm k).isSome := by
  cases hS : (fm (makeStorageKey cfg slug k)).isSome <;>
    cases hA : (fm k).isSome <;> simp [needsKey, hS, hA]

/-- C4: the pre-check agrees exactly with the transform: for every
    frontmatter map, slug, managed-key list and removal flag,
    `computeNeedsNormalization` returns true iff applying the sync
    mutator of `normalizeFileNow` to the map would change it. -/
theorem claim_C4 (cfg : StorageKeyConfig) (r : Bool) (fm : Fm) (slug : String)
    (K : List String) :
    computeNeedsNormalization cfg r fm slug K = true ↔
      applySync cfg slug K r fm ≠ fm := by
  constructor
  · intro h
    obtain ⟨k, hkK, hneed⟩ : ∃ k ∈ K, needsKey cfg r fm slug k = true := by
      simpa using List.any_eq_true.mp h
    cases r with
    | false =>
        have hSA : (fm (makeStorageKey cfg slug k)).isSome = false ∧
            (fm k).isSome = true := by
          simpa [needsKey] using hneed
        intro heq
        have hc := applySync_creates_of_alias cfg slug K fm k hkK hSA.2
        rw [heq, hSA.1] at hc
        cases hc
    | true =>
        have hA : (fm k).isSome = true := by
          rw [needsKey_true_eq] at hneed
          exact hneed
        intro heq
        have hlt := applySync_weight_lt cfg slug K.toFinset K fm
          (fun x hx => List.mem_toFinset.mpr hx) ⟨k, hkK, hA⟩
        rw [heq] at hlt
        exact lt_irrefl _ hlt
  · intro hne
    by_cases h : computeNeedsNormalization cfg r fm slug K = true
    · exact h
    · have hfalse : computeNeedsNormalization cfg r fm slug K = false := by
        cases hc : computeNeedsNormalization cfg r fm slug K with
        | true => exact absurd hc h
        | false => rfl
      exact absurd (applySync_eq_of_not_needs cfg slug r K fm hfalse) hne

/-! ### Frame and preservation lemmas for the sync step -/

theorem syncStep_frame (cfg : StorageKeyConfig) (slug : String) (r : Bool)
    (fm : Fm) (k' q : String) (hq1 : q ≠ k')
    (hq2 : q ≠ makeStorageKey cfg slug k') :
    (syncStep cfg slug r fm k') q = fm q := by
  cases hsk : (fm (makeStorageKey cfg slug k')).isSome with
  | true =>
      cases hr : r && (fm k').isSome with
      | true => simp [syncStep, hsk, hr, Fm.del_apply, hq1]
      | false => simp [syncStep, hsk, hr]
  | false =>
      cases hk : fm k' with
      | none => simp [syncStep, hsk, hk]
      | some v =>
          cases r with
          | true => simp [syncStep, hsk, hk, Fm.del_apply, Fm.set_apply, hq1, hq2]
          | false => simp [syncStep, hsk, hk, Fm.set_apply, hq2]

theorem syncStep_pres_storage (cfg : StorageKeyConfig) (slug : String) (r : Bool)
    (K : List String) (hH : NoCollision cfg slug K) (fm : Fm) (k0 k' : String)
    (hk0 : k0 ∈ K) (hk' : k' ∈ K) (v : Val)
    (hv : fm (makeStorageKey cfg slug k0) = some v) :
    (syncStep cfg slug r fm k') (makeStorageKey cfg slug k0) = some v := by
  by_cases hss : makeStorageKey cfg slug k' = makeStorageKey cfg slug k0
  · have hpresent : (fm (makeStorageKey cfg slug k')).isSome = true := by
      rw [hss, hv]; rfl
    have hSk' : makeStorageKey cfg slug k0 ≠ k' := hH k0 hk0 k' hk'
    have hstep : syncStep cfg slug r fm k'
        = if r && (fm k').isSome then Fm.del fm k' else fm := by
      simp [syncStep, hpresent]
    rw [hstep]
    split
    · rw [Fm.del_apply, if_neg hSk']; exact hv
    · exact hv
  · rw [syncStep_frame cfg slug r fm k' _ (hH k0 hk0 k' hk') (fun h => hss h.symm)]
    exact hv

theorem applySync_pres_storage_aux (cfg : StorageKeyConfig) (slug : String) (r : Bool)
    (K : List String) (hH : NoCollision cfg slug K) (k0 : String) (hk0 : k0 ∈ K)
    (v : Val) :
    ∀ (K' : List String) (fm : Fm), (∀ x ∈ K', x ∈ K) →
      fm (makeStorageKey cfg slug k0) = some v →
      (K'.foldl (syncStep cfg slug r) fm) (makeStorageKey cfg slug k0) = some v := by
  intro K'
  induction K' with
  | nil => intro fm _ hv; exact hv
  | cons k' K'' ih =>
      intro fm hsub hv
      exact ih (syncStep cfg slug r fm k')
        (fun x hx => hsub x (List.mem_cons_of_mem k' hx))
        (syncStep_pres_storage cfg slug r K hH fm k0 k' hk0
          (hsub k' (List.mem_cons_self k' K'')) v hv)

theorem applySync_pres_storage (cfg : StorageKeyConfig) (slug : String) (r : Bool)
    (K : List String) (hH : NoCollision cfg slug K) (fm : Fm) (k0 : String)
    (hk0 : k0 ∈ K) (v : Val) (hv : fm (makeStorageKey cfg slug k0) = some v) :
    applySync cfg slug K r fm (makeStorageKey cfg slug k0) = some v :=
  applySync_pres_storage_aux cfg slug r K hH k0 hk0 v K fm (fun _ hx => hx) hv

theorem syncStep_pair_frame (cfg : StorageKeyConfig) (slug : String) (r : Bool)
    (K : List String) (hH : NoCollision cfg slug K) (fm : Fm) (k0 k' : String)
    (hk0 : k0 ∈ K) (hk' : k' ∈ K) (hne : k' ≠ k0) :
    (syncStep cfg slug r fm k') (makeStorageKey cfg slug k0)
        = fm (makeStorageKey cfg slug k0) ∧
      (syncStep cfg slug r fm k') k0 = fm k0 := by
  constructor
  · exact syncStep_frame cfg slug r fm k' _ (hH k0 hk0 k' hk')
      (fun h => hne (makeStorageKey_inj cfg slug h).symm)
  · exact syncStep_frame cfg slug r fm k' k0 (Ne.symm hne)
      (fun h => hH k' hk' k0 hk0 h.symm)

theorem syncStep_creates (cfg : StorageKeyConfig) (slug : String) (r : Bool)
    (fm : Fm) (k0 : String) (v : Val)
    (h1 : fm (makeStorageKey cfg slug k0) = none) (h2 : fm k0 = some v) :
    (syncStep cfg slug r fm k0) (makeStorageKey cfg slug k0) = some v := by
  have hsk : (fm (makeStorageKey cfg slug k0)).isSome = false := by rw [h1]; rfl
  have hne : makeStorageKey cfg slug k0 ≠ k0 := makeStorageKey_ne_self cfg slug k0
  cases r with
  | true => simp [syncStep, hsk, h2, Fm.del_apply, Fm.set_apply, hne]
  | false => simp [syncStep, hsk, h2, Fm.set_apply]

theorem syncStep_noop_of_absent (cfg : StorageKeyConfig) (slug : String) (r : Bool)
    (fm : Fm) (k0 : String)
    (h1 : fm (makeStorageKey cfg slug k0) = none) (h2 : fm k0 = none) :
    syncStep cfg slug r fm k0 = fm := by
  have hsk : (fm (makeStorageKey cfg slug k0)).isSome = false := by rw [h1]; rfl
  simp [syncStep, hsk, h2]

theorem applySync_creates_aux (cfg : StorageKeyConfig) (slug : String) (r : Bool)
    (K : List String) (hH : NoCollision cfg slug K) (k0 : String) (hk0 : k0 ∈ K)
    (v : Val) :
    ∀ (K' : List String) (fm : Fm), (∀ x ∈ K', x ∈ K) → k0 ∈ K' →
      fm (makeStorageKey cfg slug k0) = none → fm k0 = some v →
      (K'.foldl (syncStep cfg slug r) fm) (makeStorageKey cfg slug k0) = some v := by
  intro K'
  induction K' with
  | nil => intro fm _ hmem; cases hmem
  | cons k' K'' ih =>
      intro fm hsub hmem h1 h2
      by_cases he : k' = k0
      · subst he
        have hest := syncStep_creates cfg slug r fm k' v h1 h2
        exact applySync_pres_storage_aux cfg slug r K hH k' hk0 v K''
          (syncStep cfg slug r fm k')
          (fun x hx => hsub x (List.mem_cons_of_mem k' hx)) hest
      · have hmem' : k0 ∈ K'' := by
          rcases List.mem_cons.mp hmem with h | h
          · exact absurd h.symm he
          · exact h
        obtain ⟨hp1, hp2⟩ := syncStep_pair_frame cfg slug r K hH fm k0 k' hk0
          (hsub k' (List.mem_cons_self k' K'')) he
        exact ih (syncStep cfg slug r fm k')
          (fun x hx => hsub x (List.mem_cons_of_mem k' hx)) hmem'
          (hp1.trans h1) (hp2.trans h2)

theorem applySync_creates (cfg : StorageKeyConfig) (slug : String) (r : Bool)
    (K : List String) (hH : NoCollision cfg slug K) (fm : Fm) (k0 : String)
    (hk0 : k0 ∈ K) (v : Val)
    (h1 : fm (makeStorageKey cfg slug k0) = none) (h2 : fm k0 = some v) :
    applySync cfg slug K r fm (makeStorageKey cfg slug k0) = some v :=
  applySync_creates_aux cfg slug r K hH k0 hk0 v K fm (fun _ hx => hx) hk0 h1 h2

theorem applySync_absent_aux (cfg : StorageKeyConfig) (slug : String) (r : Bool)
    (K : List String) (hH : NoCollision cfg slug K) (k0 : String) (hk0 : k0 ∈ K) :
    ∀ (K' : List String) (fm : Fm), (∀ x ∈ K', x ∈ K) →
      fm (makeStorageKey cfg slug k0) = none → fm k0 = none →
      (K'.foldl (syncStep cfg slug r) fm) (makeStorageKey cfg slug k0) = none ∧
        (K'.foldl (syncStep cfg slug r) fm) k0 = none := by
  intro K'
  induction K' with
  | nil => intro fm _ h1 h2; exact ⟨h1, h2⟩
  | cons k' K'' ih =>
      intro fm hsub h1 h2
      by_cases he : k' = k0
      · subst he
        rw [show (k' :: K'').foldl (syncStep cfg slug r) fm
            = K''.foldl (syncStep cfg slug r) (syncStep cfg slug r fm k') from rfl,
          syncStep_noop_of_absent cfg slug r fm k' h1 h2]
        exact ih fm (fun x hx => hsub x (List.mem_cons_of_mem k' hx)) h1 h2
      · obtain ⟨hp1, hp2⟩ := syncStep_pair_frame cfg slug r K hH fm k0 k' hk0
          (hsub k' (List.mem_cons_self k' K'')) he
        exact ih (syncStep cfg slug r fm k')
          (fun x hx => hsub x (List.mem_cons_of_mem k' hx))
          (hp1.trans h1) (hp2.trans h2)

theorem applySync_absent (cfg : StorageKeyConfig) (slug : String) (r : Bool)
    (K : List String) (hH : NoCollision cfg slug K) (fm : Fm) (k0 : String)
    (hk0 : k0 ∈ K) (h1 : fm (makeStorageKey cfg slug k0) = none)
    (h2 : fm k0 = none) :
    applySync cfg slug K r fm (makeStorageKey cfg slug k0) = none :=
  (applySync_absent_aux cfg slug r K hH k0 hk0 K fm (fun _ hx => hx) h1 h2).1

/-! ### Idempotence of the sync transform on collision-free key lists -/

theorem syncStep_post_estab (cfg : StorageKeyConfig) (slug : String) (r : Bool)
    (fm : Fm) (k : String) :
    (syncStep cfg slug r fm k) k = none ∨
      (((syncStep cfg slug r fm k) (makeStorageKey cfg slug k)).isSome = true ∧
        r = false) := by
  have hne : makeStorageKey cfg slug k ≠ k := makeStorageKey_ne_self cfg slug k
  cases hsk : (fm (makeStorageKey cfg slug k)).isSome with
  | true =>
      cases hk : fm k with
      | some w =>
          cases r with
          | true => left; simp [syncStep, hsk, hk, Fm.del_apply]
          | false => right; simp [syncStep, hsk, hk]
      | none =>
          left; simp [syncStep, hsk, hk]
  | false =>
      cases hk : fm k with
      | some w =>
          cases r with
          | true => left; simp [syncStep, hsk, hk, Fm.del_apply]
          | false => right; simp [syncStep, hsk, hk, Fm.set_apply]
      | none => left; simp [syncStep, hsk, hk]

theorem syncStep_post_pres (cfg : StorageKeyConfig) (slug : String) (r : Bool)
    (K : List String) (hH : NoCollision cfg slug K) (fm : Fm) (k k' : String)
    (hk : k ∈ K) (hk' : k' ∈ K)
    (hP : fm k = none ∨
      ((fm (makeStorageKey cfg slug k)).isSome = true ∧ r = false)) :
    (syncStep cfg slug r fm k') k = none ∨
      (((syncStep cfg slug r fm k') (makeStorageKey cfg slug k)).isSome = true ∧
        r = false) := by
  rcases hP with h1 | ⟨hst, hr⟩
  · left
    by_cases he : k = k'
    · subst he
      cases hsk : (fm (makeStorageKey cfg slug k)).isSome with
      | true => simp [syncStep, hsk, h1]
      | false => simp [syncStep, hsk, h1]
    · rw [syncStep_frame cfg slug r fm k' k he (fun h => hH k' hk' k hk h.symm)]
      exact h1
  · subst hr
    right
    exact ⟨syncStep_mono cfg slug fm k' _ hst, rfl⟩

theorem applySync_post_pres (cfg : StorageKeyConfig) (slug : String) (r : Bool)
    (K : List String) (hH : NoCollision cfg slug K) (k : String) (hk : k ∈ K) :
    ∀ (K' : List String) (fm : Fm), (∀ x ∈ K', x ∈ K) →
      (fm k = none ∨
        ((fm (makeStorageKey cfg slug k)).isSome = true ∧ r = false)) →
      ((K'.foldl (syncStep cfg slug r) fm) k = none ∨
        (((K'.foldl (syncStep cfg slug r) fm) (makeStorageKey cfg slug k)).isSome
            = true ∧ r = false)) := by
  intro K'
  induction K' with
  | nil => intro fm _ hP; exact hP
  | cons k' K'' ih =>
      intro fm hsub hP
      exact ih (syncStep cfg slug r fm k')
        (fun x hx => hsub x (List.mem_cons_of_mem k' hx))
        (syncStep_post_pres cfg slug r K hH fm k k' hk
          (hsub k' (List.mem_cons_self k' K'')) hP)

theorem applySync_post (cfg : StorageKeyConfig) (slug : String) (r : Bool)
    (K : List String) (hH : NoCollision cfg slug K) (k : String) (hk : k ∈ K) :
    ∀ (K' : List String) (fm : Fm), (∀ x ∈ K', x ∈ K) → k ∈ K' →
      ((K'.foldl (syncStep cfg slug r) fm) k = none ∨
        (((K'.foldl (syncStep cfg slug r) fm) (makeStorageKey cfg slug k)).isSome
            = true ∧ r = false)) := by
  intro K'
  induction K' with
  | nil => intro fm _ hmem; cases hmem
  | cons k' K'' ih =>
      intro fm hsub hmem
      by_cases he : k' = k
      · subst he
        exact applySync_post_pres cfg slug r K hH k' hk K''
          (syncStep cfg slug r fm k')
          (fun x hx => hsub x (List.mem_cons_of_mem k' hx))
          (syncStep_post_estab cfg slug r fm k')
      · have hmem' : k ∈ K'' := by
          rcases List.mem_cons.mp hmem with h | h
          · exact absurd h.symm he
          · exact h
        exact ih (syncStep cfg slug r fm k')
          (fun x hx => hsub x (List.mem_cons_of_mem k' hx)) hmem'

/-! ### Frame and round-trip lemmas for the restore step -/

theorem restoreStep_frame (cfg : StorageKeyConfig) (slug : String) (del : Bool)
    (fm : Fm) (k' q : String) (hq1 : q ≠ k')
    (hq2 : q ≠ makeStorageKey cfg slug k') :
    (restoreStep cfg slug del fm k') q = fm q := by
  cases hsk : fm (makeStorageKey cfg slug k') with
  | none => simp [restoreStep, hsk]
  | some v =>
      cases del with
      | true => simp [restoreStep, hsk, Fm.del_apply, Fm.set_apply, hq1, hq2]
      | false => simp [restoreStep, hsk, Fm.set_apply, hq1]

theorem restoreStep_noop_of_absent (cfg : StorageKeyConfig) (slug : String)
    (del : Bool) (fm : Fm) (k0 : String)
    (h : fm (makeStorageKey cfg slug k0) = none) :
    restoreStep cfg slug del fm k0 = fm := by
  simp [restoreStep, h]

theorem restoreStep_estab (cfg : StorageKeyConfig) (slug : String) (fm : Fm)
    (k0 : String) (v : Val) (hst : fm (makeStorageKey cfg slug k0) = some v) :
    (restoreStep cfg slug true fm k0) k0 = some v ∧
      (restoreStep cfg slug true fm k0) (makeStorageKey cfg slug k0) = none := by
  have hne : makeStorageKey cfg slug k0 ≠ k0 := makeStorageKey_ne_self cfg slug k0
  constructor
  · simp [restoreStep, hst, Fm.del_apply, Fm.set_apply, Ne.symm hne]
  · simp [restoreStep, hst, Fm.del_apply]

theorem restoreStep_pair_pres (cfg : StorageKeyConfig) (slug : String)
    (K : List String) (hH : NoCollision cfg slug K) (fm : Fm) (k0 k' : String)
    (hk0 : k0 ∈ K) (hk' : k' ∈ K) (v : Val)
    (h1 : fm k0 = some v) (h2 : fm (makeStorageKey cfg slug k0) = none) :
    (restoreStep cfg slug true fm k') k0 = some v ∧
      (restoreStep cfg slug true fm k') (makeStorageKey cfg slug k0) = none := by
  by_cases he : k' = k0
  · subst he
    rw [restoreStep_noop_of_absent cfg slug true fm k' h2]
    exact ⟨h1, h2⟩
  · constructor
    · rw [restoreStep_frame cfg slug true fm k' k0 (Ne.symm he)
        (fun h => hH k' hk' k0 hk0 h.symm)]
      exact h1
    · rw [restoreStep_frame cfg slug true fm k' _ (hH k0 hk0 k' hk')
        (fun h => he (makeStorageKey_inj cfg slug h).symm)]
      exact h2

theorem restoreAliases_pair_pres (cfg : StorageKeyConfig) (slug : String)
    (K : List String) (hH : NoCollision cfg slug K) (k0 : String) (hk0 : k0 ∈ K)
    (v : Val) :
    ∀ (K' : List String) (fm : Fm), (∀ x ∈ K', x ∈ K) →
      fm k0 = some v → fm (makeStorageKey cfg slug k0) = none →
      (K'.foldl (restoreStep cfg slug true) fm) k0 = some v ∧
        (K'.foldl (restoreStep cfg slug true) fm) (makeStorageKey cfg slug k0)
          = none := by
  intro K'
  induction K' with
  | nil => intro fm _ h1 h2; exact ⟨h1, h2⟩
  | cons k' K'' ih =>
      intro fm hsub h1 h2
      obtain ⟨hp1, hp2⟩ := restoreStep_pair_pres cfg slug K hH fm k0 k' hk0
        (hsub k' (List.mem_cons_self k' K'')) v h1 h2
      exact ih (restoreStep cfg slug true fm k')
        (fun x hx => hsub x (List.mem_cons_of_mem k' hx)) hp1 hp2

theorem restoreAliases_roundtrip_aux (cfg : StorageKeyConfig) (slug : String)
    (K : List String) (hH : NoCollision cfg slug K) (k0 : String) (hk0 : k0 ∈ K)
    (v : Val) :
    ∀ (K' : List String) (fm : Fm), (∀ x ∈ K', x ∈ K) → k0 ∈ K' →
      fm (makeStorageKey cfg slug k0) = some v →
      (K'.foldl (restoreStep cfg slug true) fm) k0 = some v ∧
        (K'.foldl (restoreStep cfg slug true) fm) (makeStorageKey cfg slug k0)
          = none := by
  intro K'
  induction K' with
  | nil => intro fm _ hmem; cases hmem
  | cons k' K'' ih =>
      intro fm hsub hmem hst
      by_cases he : k' = k0
      · subst he
        obtain ⟨he1, he2⟩ := restoreStep_estab cfg slug fm k' v hst
        exact restoreAliases_pair_pres cfg slug K hH k' hk0 v K''
          (restoreStep cfg slug true fm k')
          (fun x hx => hsub x (List.mem_cons_of_mem k' hx)) he1 he2
      · have hmem' : k0 ∈ K'' := by
          rcases List.mem_cons.mp hmem with h | h
          · exact absurd h.symm he
          · exact h
        have hpres : (restoreStep cfg slug true fm k') (makeStorageKey cfg slug k0)
            = some v := by
          rw [restoreStep_frame cfg slug true fm k' _
            (hH k0 hk0 k' (hsub k' (List.mem_cons_self k' K'')))
            (fun h => he (makeStorageKey_inj cfg slug h).symm)]
          exact hst
        exact ih (restoreStep cfg slug true fm k')
          (fun x hx => hsub x (List.mem_cons_of_mem k' hx)) hmem' hpres

theorem restoreAliases_roundtrip (cfg : StorageKeyConfig) (slug : String)
    (K : List String) (hH : NoCollision cfg slug K) (fm : Fm) (k0 : String)
    (hk0 : k0 ∈ K) (v : Val)
    (hst : fm (makeStorageKey cfg slug k0) = some v) :
    restoreAliases cfg slug K true fm k0 = some v ∧
      restoreAliases cfg slug K true fm (makeStorageKey cfg slug k0) = none :=
  restoreAliases_roundtrip_aux cfg slug K hH k0 hk0 v K fm (fun _ hx => hx) hk0 hst

/-! ### The template step never touches an existing key -/

theorem templateStep_pres (cfg : StorageKeyConfig) (slug : String)
    (managed : List String) (r : Bool) (fm : Fm) (e : String × Val)
    (x : String) (v : Val) (hv : fm x = some v) :
    (templateStep cfg slug managed r fm e) x = some v := by
  by_cases h1 : jsTrim e.1 = ""
  · simp [templateStep, h1, hv]
  · by_cases h2 : managed ≠ [] ∧ jsTrim e.1 ∉ managed
    · simp [templateStep, h1, h2, hv]
    · by_cases h3 : (fm (makeStorageKey cfg slug (jsTrim e.1))).isSome = true
      · simp [templateStep, h1, h2, h3, hv]
      · have h3f : (fm (makeStorageKey cfg slug (jsTrim e.1))).isSome = false := by
          cases hb : (fm (makeStorageKey cfg slug (jsTrim e.1))).isSome with
          | true => exact absurd hb h3
          | false => rfl
        have hx1 : x ≠ makeStorageKey cfg slug (jsTrim e.1) := by
          intro h
          rw [← h, hv] at h3f
          simp at h3f
        cases r with
        | true => simp [templateStep, h1, h2, h3f, Fm.set_apply, hx1, hv]
        | false =>
            have hAS : jsTrim e.1 ≠ makeStorageKey cfg slug (jsTrim e.1) :=
              fun h => makeStorageKey_ne_self cfg slug (jsTrim e.1) h.symm
            cases hA : (fm (jsTrim e.1)).isSome with
            | true =>
                simp [templateStep, h1, h2, h3f, Fm.set_apply, hAS, hA, hx1, hv]
            | false =>
                have hx2 : x ≠ jsTrim e.1 := by
                  intro h
                  rw [← h, hv] at hA
                  simp at hA
                simp [templateStep, h1, h2, h3f, Fm.set_apply, hAS, hA, hx1, hx2, hv]

theorem applyTemplate_pres (cfg : StorageKeyConfig) (slug : String)
    (managed : List String) (r : Bool) :
    ∀ (entries : List (String × Val)) (fm : Fm) (x : String) (v : Val),
      fm x = some v → applyTemplate cfg slug entries managed r fm x = some v := by
  intro entries
  induction entries with
  | nil => intro fm x v hv; exact hv
  | cons e es ih =>
      intro fm x v hv
      exact ih (templateStep cfg slug managed r fm e) x v
        (templateStep_pres cfg slug managed r fm e x v hv)

/-! ### Rule resolution -/

theorem str_length_app (s t : String) : (s ++ t).length = s.length + t.length := by
  show (s ++ t).data.length = s.data.length + t.data.length
  rw [String.data_app]
  exact List.length_append s.data t.data

theorem normSlashes_length (s : String) : (normSlashes s).length = s.length := by
  show (s.data.map _).length = s.data.length
  exact List.length_map s.data _

theorem normalizePrefix_of_trim_empty (p : String) (h : jsTrim p = "") :
    normalizePrefix p = "" := by
  simp [normalizePrefix, h]

theorem normalizePrefix_ne_empty (p : String) (ht : jsTrim p ≠ "") :
    normalizePrefix p ≠ "" := by
  have hlen0 : 0 < (jsTrim p).length := String.length_pos_of_ne_empty ht
  have hn : (normSlashes (jsTrim p)).length = (jsTrim p).length := normSlashes_length _
  intro h
  have h' : (if strEndsWith (normSlashes (jsTrim p)) "/" then normSlashes (jsTrim p)
      else normSlashes (jsTrim p) ++ "/") = "" := by
    simpa [normalizePrefix, ht] using h
  split at h'
  · rw [h'] at hn
    have h0 : ("" : String).length = 0 := rfl
    omega
  · have hl := congrArg String.length h'
    rw [str_length_app] at hl
    have h1 : ("/" : String).length = 1 := rfl
    have h0 : ("" : String).length = 0 := rfl
    omega

theorem slugScan_eq_spec (path : String) :
    ∀ rules : List FolderRule,
      slugScan path rules
        = ((rules.filter (fun r =>
            !(jsTrim r.folderPrefix == "") && !(jsTrim r.namespaceSlug == ""))).find?
              (fun r => strStartsWith path (normalizePrefix r.folderPrefix))).map
            (fun r => jsTrim r.namespaceSlug) := by
  intro rules
  induction rules with
  | nil => rfl
  | cons r rs ih =>
      by_cases h1 : jsTrim r.folderPrefix = ""
      · have hp : normalizePrefix r.folderPrefix = "" :=
          normalizePrefix_of_trim_empty r.folderPrefix h1
        have hscan : slugScan path (r :: rs) = slugScan path rs := by
          simp only [slugScan]
          rw [if_pos (Or.inl hp)]
        rw [hscan, List.filter_cons, if_neg (by simp [h1]), ih]
      · by_cases h2 : jsTrim r.namespaceSlug = ""
        · have hscan : slugScan path (r :: rs) = slugScan path rs := by
            simp only [slugScan]
            rw [if_pos (Or.inr h2)]
          rw [hscan, List.filter_cons, if_neg (by simp [h2]), ih]
        · have hp : normalizePrefix r.folderPrefix ≠ "" :=
            normalizePrefix_ne_empty r.folderPrefix h1
          rw [List.filter_cons, if_pos (by simp [h1, h2])]
          by_cases hs : strStartsWith path (normalizePrefix r.folderPrefix) = true
          · have hscan : slugScan path (r :: rs) = some (jsTrim r.namespaceSlug) := by
              simp only [slugScan]
              rw [if_neg (not_or.mpr ⟨hp, h2⟩), if_pos hs]
            rw [hscan, @List.find?_cons_of_pos FolderRule
              (fun q => strStartsWith path (normalizePrefix q.folderPrefix)) r _ hs]
            rfl
          · have hscan : slugScan path (r :: rs) = slugScan path rs := by
              simp only [slugScan]
              rw [if_neg (not_or.mpr ⟨hp, h2⟩), if_neg hs]
            rw [hscan, @List.find?_cons_of_neg FolderRule
              (fun q => strStartsWith path (normalizePrefix q.folderPrefix)) r _ hs, ih]

/-! ### Claims -/

/-- C1 counterexample: the claim fails as universally stated.  With
    slug `n`, managed keys `["n__a", "a"]`, removal on, and frontmatter
    `{n__a: "x", n__n__a: "z", a: "y"}`, the storage key `n__a` computed
    for the managed alias key `a` exists with value `"x"`, yet after the
    sync mutator it maps to `"y"`: the loop first deletes `n__a` (it is
    also a managed alias key whose own storage key exists), then moves
    `a`'s value into it. -/
theorem claim_C1_counterexample :
    makeStorageKey cfg0 "n" "a" = "n__a" ∧
      fmColl "n__a" = some (Val.vstr "x") ∧
      applySync cfg0 "n" ["n__a", "a"] true fmColl "n__a" = some (Val.vstr "y") :=
  ⟨by decide, by decide, by decide⟩

/-- C1 (amended): provided no managed alias key is itself the storage
    key of a managed alias key, an existing storage key's value survives
    both the sync mutator of `normalizeFileNow` and the template mutator
    of `applyTemplateToNewFile` unchanged. -/
theorem claim_C1 (cfg : StorageKeyConfig) (slug : String) (K : List String)
    (r : Bool) (fm : Fm) (entries : List (String × Val)) (managed : List String)
    (k0 : String) (v : Val) (hH : NoCollision cfg slug K) (hk0 : k0 ∈ K)
    (hv : fm (makeStorageKey cfg slug k0) = some v) :
    applySync cfg slug K r fm (makeStorageKey cfg slug k0) = some v ∧
      applyTemplate cfg slug entries managed r fm (makeStorageKey cfg slug k0)
        = some v :=
  ⟨applySync_pres_storage cfg slug r K hH fm k0 hk0 v hv,
   applyTemplate_pres cfg slug managed r entries fm _ v hv⟩

/-- C1 witness: the amended claim at a concrete input. -/
theorem claim_C1_witness :
    applySync cfg0 "n" ["a"] true fmPre (makeStorageKey cfg0 "n" "a")
        = some (Val.vstr "x") ∧
      applyTemplate cfg0 "n" entriesT ["a"] true fmPre (makeStorageKey cfg0 "n" "a")
        = some (Val.vstr "x") :=
  claim_C1 cfg0 "n" ["a"] true fmPre entriesT ["a"] "a" (Val.vstr "x")
    (by unfold NoCollision; decide) (by decide) (by decide)

/-- C2 counterexample: the sync transform is not idempotent as
    universally stated.  With slug `n`, managed keys `["n__a", "a"]`,
    removal on, and frontmatter `{a: "w"}`, the first pass produces
    `{n__a: "w"}` and the second pass moves that value again, producing
    `{n__n__a: "w"}`. -/
theorem claim_C2_counterexample :
    applySync cfg0 "n" ["n__a", "a"] true
        (applySync cfg0 "n" ["n__a", "a"] true fmA)
      ≠ applySync cfg0 "n" ["n__a", "a"] true fmA := by
  intro h
  have h2 : (none : Option Val) = some (Val.vstr "w") := by
    have hl : applySync cfg0 "n" ["n__a", "a"] true
        (applySync cfg0 "n" ["n__a", "a"] true fmA) "n__a" = none := by decide
    have hr : applySync cfg0 "n" ["n__a", "a"] true fmA "n__a"
        = some (Val.vstr "w") := by decide
    rw [← hl, ← hr, h]
  cases h2

/-- C2 (amended): the sync mutator of `normalizeFileNow` is idempotent
    provided no managed alias key is itself the storage key of a managed
    alias key. -/
theorem claim_C2 (cfg : StorageKeyConfig) (slug : String) (K : List String)
    (r : Bool) (fm : Fm) (hH : NoCollision cfg slug K) :
    applySync cfg slug K r (applySync cfg slug K r fm)
      = applySync cfg slug K r fm := by
  apply applySync_eq_of_needs_false
  intro k hk
  rcases applySync_post cfg slug r K hH k hk K fm (fun _ hx => hx) hk with
    h | ⟨hst, hr⟩
  · have h' : applySync cfg slug K r fm k = none := h
    simp [needsKey, h']
  · subst hr
    have hst' : (applySync cfg slug K false fm
        (makeStorageKey cfg slug k)).isSome = true := hst
    simp [needsKey, hst']

/-- C2 witness: the amended claim at a concrete input. -/
theorem claim_C2_witness :
    applySync cfg0 "n" ["a"] true (applySync cfg0 "n" ["a"] true fmA)
      = applySync cfg0 "n" ["a"] true fmA :=
  claim_C2 cfg0 "n" ["a"] true fmA (by unfold NoCollision; decide)

/-- C3 counterexample: the round-trip does not restore an alias key
    whose storage key already existed before sync.  With frontmatter
    `{n__a: "x", a: "y"}` and managed key `a`, sync (removal on) keeps
    the storage value `"x"` and discards the alias value `"y"`; restore
    then writes `"x"` — not the pre-sync `"y"` — back into `a`. -/
theorem claim_C3_counterexample :
    fmPre "a" = some (Val.vstr "y") ∧
      restoreAliases cfg0 "n" ["a"] true (applySync cfg0 "n" ["a"] true fmPre) "a"
        = some (Val.vstr "x") :=
  ⟨by decide, by decide⟩

/-- C3 (amended): provided no managed alias key is itself the storage
    key of a managed alias key, the round-trip (sync with removal on,
    then restore with storage-key deletion on) restores the alias key to
    its pre-sync value and removes the storage key, for every managed
    key whose alias key was present and whose storage key was absent
    before sync. -/
theorem claim_C3 (cfg : StorageKeyConfig) (slug : String) (K : List String)
    (fm : Fm) (k0 : String) (v : Val) (hH : NoCollision cfg slug K)
    (hk0 : k0 ∈ K) (hv : fm k0 = some v)
    (habs : fm (makeStorageKey cfg slug k0) = none) :
    restoreAliases cfg slug K true (applySync cfg slug K true fm) k0 = some v ∧
      restoreAliases cfg slug K true (applySync cfg slug K true fm)
        (makeStorageKey cfg slug k0) = none := by
  have hsync := applySync_creates cfg slug true K hH fm k0 hk0 v habs hv
  exact restoreAliases_roundtrip cfg slug K hH _ k0 hk0 v hsync

/-- C3 witness: the amended claim at a concrete input. -/
theorem claim_C3_witness :
    restoreAliases cfg0 "n" ["a"] true (applySync cfg0 "n" ["a"] true fmA) "a"
        = some (Val.vstr "w") ∧
      restoreAliases cfg0 "n" ["a"] true (applySync cfg0 "n" ["a"] true fmA)
        (makeStorageKey cfg0 "n" "a") = none :=
  claim_C3 cfg0 "n" ["a"] fmA "a" (Val.vstr "w")
    (by unfold NoCollision; decide) (by decide) (by decide) (by decide)

/-- C5 counterexample: the sync transform does create a storage key
    bound to null.  With managed key `priority` present as `null` and
    the storage key absent, the mutator copies the null verbatim into
    the storage key. -/
theorem claim_C5_counterexample :
    fmNull (makeStorageKey cfg0 "n" "priority") = none ∧
      applySync cfg0 "n" ["priority"] false fmNull
        (makeStorageKey cfg0 "n" "priority") = some Val.vnull :=
  ⟨by decide, by decide⟩

/-- C5 (amended): provided no managed alias key is itself the storage
    key of a managed alias key, the sync mutator creates a storage key
    only by copying a present alias key's value verbatim — including
    null: an absent storage key stays absent when the alias key is
    absent, and receives exactly the alias value (null included) when
    the alias key is present. -/
theorem claim_C5 (cfg : StorageKeyConfig) (slug : String) (K : List String)
    (r : Bool) (fm : Fm) (k0 : String) (hH : NoCollision cfg slug K)
    (hk0 : k0 ∈ K) (habs : fm (makeStorageKey cfg slug k0) = none) :
    (fm k0 = none →
        applySync cfg slug K r fm (makeStorageKey cfg slug k0) = none) ∧
      ∀ v : Val, fm k0 = some v →
        applySync cfg slug K r fm (makeStorageKey cfg slug k0) = some v :=
  ⟨fun h2 => applySync_absent cfg slug r K hH fm k0 hk0 habs h2,
   fun v h2 => applySync_creates cfg slug r K hH fm k0 hk0 v habs h2⟩

/-- C5 witness: the amended claim at a concrete input — the null value
    of `priority` is copied verbatim into the storage key. -/
theorem claim_C5_witness :
    applySync cfg0 "n" ["priority"] false fmNull
      (makeStorageKey cfg0 "n" "priority") = some Val.vnull :=
  (claim_C5 cfg0 "n" ["priority"] false fmNull "priority"
    (by unfold NoCollision; decide) (by decide) (by decide)).2 Val.vnull (by decide)

/-- C6: rule resolution is first-match-wins over the ordered rule list:
    it normalizes the path's separators, skips every rule whose trimmed
    folder prefix or trimmed namespace slug is empty, and returns the
    trimmed slug of the first remaining rule whose normalized folder
    prefix is a literal prefix of the path (`none` when no rule
    matches); in particular, with `a/ ↦ s1` listed before `a/b/ ↦ s2`,
    the path `a/b/c.md` resolves to `s1` regardless of specificity. -/
theorem claim_C6 :
    (∀ (rules : List FolderRule) (path : String),
        getNamespaceSlugForFile rules path = resolveRuleSpec rules path) ∧
      getNamespaceSlugForFile [ruleA, ruleAB] "a/b/c.md" = some "s1" := by
  constructor
  · intro rules path
    exact slugScan_eq_spec (normSlashes path) rules
  · decide

/-- C7 counterexample: an empty managed-key list is not a no-op for the
    template operation: with managed keys empty, the managed-key
    restriction is skipped entirely and the declared key `priority` is
    written into storage, changing an empty frontmatter map. -/
theorem claim_C7_counterexample :
    Fm.empty "n__priority" = none ∧
      applyTemplate cfg0 "n" [("priority", Val.vstr "medium")] [] true Fm.empty
        "n__priority" = some (Val.vstr "medium") :=
  ⟨rfl, by decide⟩

/-- C7 (amended): with an empty managed-key list the sync operation and
    the restore operation leave the frontmatter map unchanged (and
    report no failure); the template operation instead treats an empty
    managed-key list as "no restriction" and is guaranteed to leave the
    map unchanged only when its declared-entry list is empty. -/
theorem claim_C7 :
    (∀ (cfg : StorageKeyConfig) (slug : String) (r : Bool) (fm : Fm),
        applySync cfg slug [] r fm = fm) ∧
      (∀ (cfg : StorageKeyConfig) (slug : String) (d : Bool) (fm : Fm),
        restoreAliases cfg slug [] d fm = fm) ∧
      ∀ (cfg : StorageKeyConfig) (slug : String) (K : List String) (r : Bool)
        (fm : Fm), applyTemplate cfg slug [] K r fm = fm :=
  ⟨fun _ _ _ _ => rfl, fun _ _ _ _ => rfl, fun _ _ _ _ _ => rfl⟩

/-- C8 counterexample: bulk restore is not failure-isolated.  With two
    scoped files where the first one's read-modify-write rejects, the
    batch loop propagates the rejection and aborts instead of processing
    the second file and returning a success count. -/
theorem claim_C8_counterexample :
    restoreAllScoped cfg0 [ruleDocs] "priority" true [fileFail, fileOk] 0
      = Except.error "processFrontMatter rejected: docs/one.md" := by
  rfl

/-- C8 (amended): the bulk restore loop aborts at the first scoped
    document whose per-document restore rejects: whenever every earlier
    scoped document succeeds, the whole operation fails with that
    document's error, and the documents after it are never examined (the
    result is independent of them). -/
theorem claim_C8 (cfg : StorageKeyConfig) (rules : List FolderRule)
    (managedRaw : String) (del : Bool) (f : VFile) (ys : List VFile) (e : String)
    (hf : restoreAliasesForFile cfg rules managedRaw del [] f = Except.error e)
    (hscoped : (getRuleForFile rules f.path).isSome = true) :
    ∀ (xs : List VFile) (count : Nat),
      (∀ x ∈ xs, (getRuleForFile rules x.path).isSome = true →
        ∃ fmr, restoreAliasesForFile cfg rules managedRaw del [] x
          = Except.ok fmr) →
      restoreAllScoped cfg rules managedRaw del (xs ++ f :: ys) count
        = Except.error e := by
  intro xs
  induction xs with
  | nil =>
      intro count _
      obtain ⟨rule, hrule⟩ : ∃ rule, getRuleForFile rules f.path = some rule := by
        cases hr : getRuleForFile rules f.path with
        | none => rw [hr] at hscoped; cases hscoped
        | some rule => exact ⟨rule, rfl⟩
      simp [restoreAllScoped, hrule, hf]
  | cons x xs ih =>
      intro count hxs
      cases hr : getRuleForFile rules x.path with
      | none =>
          have hstep : restoreAllScoped cfg rules managedRaw del
              ((x :: xs) ++ f :: ys) count
            = restoreAllScoped cfg rules managedRaw del (xs ++ f :: ys) count := by
            simp [restoreAllScoped, hr]
          rw [hstep]
          exact ih count (fun q hq => hxs q (List.mem_cons_of_mem x hq))
      | some rule =>
          obtain ⟨fmr, hok⟩ := hxs x (List.mem_cons_self x xs) (by rw [hr]; rfl)
          have hstep : restoreAllScoped cfg rules managedRaw del
              ((x :: xs) ++ f :: ys) count
            = restoreAllScoped cfg rules managedRaw del (xs ++ f :: ys)
                (count + 1) := by
            simp [restoreAllScoped, hr, hok]
          rw [hstep]
          exact ih (count + 1) (fun q hq => hxs q (List.mem_cons_of_mem x hq))

/-- C8 witness: the amended claim at a concrete input — one successful
    scoped file before the failing one. -/
theorem claim_C8_witness :
    restoreAllScoped cfg0 [ruleDocs] "priority" true
        ([fileOk] ++ fileFail :: []) 0
      = Except.error "processFrontMatter rejected: docs/one.md" :=
  claim_C8 cfg0 [ruleDocs] "priority" true fileFail [] _ rfl rfl [fileOk] 0
    (fun x hx _ => by
      have hxe : x = fileOk := by simpa using hx
      subst hxe
      exact ⟨restoreAliases cfg0 "n" ["priority"] true fmHigh, rfl⟩)

/-- C9: guaranteed release of the in-flight marker: whenever a sync
    operation is triggered for a path that is not already in-flight, the
    in-flight set after `normalizeFileNow` settles equals the initial
    one — on every exit path, whether the read-modify-write succeeds or
    rejects — so the path is never left in the in-flight set. -/
theorem claim_C9 (cfg : StorageKeyConfig) (rules : List FolderRule)
    (managedRaw : String) (r : Bool) (inflight : List String) (f : VFile)
    (h : f.path ∉ inflight) :
    (normalizeFileNow cfg rules managedRaw r inflight f).2 = inflight ∧
      f.path ∉ (normalizeFileNow cfg rules managedRaw r inflight f).2 := by
  have hsnd : (normalizeFileNow cfg rules managedRaw r inflight f).2 = inflight := by
    unfold normalizeFileNow
    cases hslug : getNamespaceSlugForFile rules f.path with
    | none => rfl
    | some slug =>
        dsimp only
        rw [if_neg h]
        split
        · rfl
        · split
          · rfl
          · simp [List.erase_cons_head]
  refine ⟨hsnd, ?_⟩
  rw [hsnd]
  exact h

/-- C9 witness: the theorem at a concrete input whose read-modify-write
    rejects (the failure exit path). -/
theorem claim_C9_witness :
    (normalizeFileNow cfg0 [ruleDocs] "priority" true [] fileFail).2 = [] ∧
      fileFail.path ∉ (normalizeFileNow cfg0 [ruleDocs] "priority" true []
        fileFail).2 :=
  claim_C9 cfg0 [ruleDocs] "priority" true [] fileFail (by simp)

/-- C10: template application on a fresh document: the scenario template
    `{priority: "medium", status: "draft", owner: null}` with slug
    `projects`, managed keys `priority, status, owner` and removal on,
    applied to an empty frontmatter map, yields exactly the three
    storage keys with the declared values; and in general each declared
    entry, processed in declaration order, is skipped when its trimmed
    key is blank, not in a non-empty managed-key list, or its storage
    key already exists — and otherwise sets its storage key to the
    declared default value. -/
theorem claim_C10 :
    applyTemplate cfg0 "projects" entriesT ["priority", "status", "owner"] true
        Fm.empty
      = ((Fm.empty.set "projects__priority" (Val.vstr "medium")).set
          "projects__status" (Val.vstr "draft")).set "projects__owner" Val.vnull ∧
      ∀ (cfg : StorageKeyConfig) (slug : String) (managed : List String)
        (r : Bool) (fm : Fm) (e : String × Val),
        (jsTrim e.1 = "" ∨ (managed ≠ [] ∧ jsTrim e.1 ∉ managed) ∨
            (fm (makeStorageKey cfg slug (jsTrim e.1))).isSome = true →
          templateStep cfg slug managed r fm e = fm) ∧
        (jsTrim e.1 ≠ "" → (managed = [] ∨ jsTrim e.1 ∈ managed) →
          fm (makeStorageKey cfg slug (jsTrim e.1)) = none →
          (templateStep cfg slug managed r fm e)
            (makeStorageKey cfg slug (jsTrim e.1)) = some e.2) := by
  constructor
  · rfl
  · intro cfg slug managed r fm e
    constructor
    · rintro (h | ⟨hm, hnm⟩ | hst)
      · simp [templateStep, h]
      · by_cases h1 : jsTrim e.1 = ""
        · simp [templateStep, h1]
        · simp [templateStep, h1, hm, hnm]
      · by_cases h1 : jsTrim e.1 = ""
        · simp [templateStep, h1]
        · by_cases h2 : managed ≠ [] ∧ jsTrim e.1 ∉ managed
          · simp [templateStep, h1, h2]
          · simp [templateStep, h1, h2, hst]
    · intro h1 h2 h3
      have h3f : (fm (makeStorageKey cfg slug (jsTrim e.1))).isSome = false := by
        rw [h3]; rfl
      have h2' : ¬(managed ≠ [] ∧ jsTrim e.1 ∉ managed) := by
        rcases h2 with h | h
        · exact fun hc => hc.1 h
        · exact fun hc => hc.2 h
      have hAS : jsTrim e.1 ≠ makeStorageKey cfg slug (jsTrim e.1) :=
        fun hq => makeStorageKey_ne_self cfg slug (jsTrim e.1) hq.symm
      cases r with
      | true => simp [templateStep, h1, h2', h3f, Fm.set_apply]
      | false =>
          cases hA : (fm (jsTrim e.1)).isSome with
          | true => simp [templateStep, h1, h2', h3f, Fm.set_apply, hAS, hA]
          | false =>
              simp [templateStep, h1, h2', h3f, Fm.set_apply, hAS, hA,
                Ne.symm hAS]

/-- C10 witness: the general part of the theorem at a concrete input —
    an unrestricted template entry lands in its storage key. -/
theorem claim_C10_witness :
    templateStep cfg0 "projects" [] true Fm.empty ("owner", Val.vnull)
      (makeStorageKey cfg0 "projects" (jsTrim "owner")) = some Val.vnull :=
  (claim_C10.2 cfg0 "projects" [] true Fm.empty ("owner", Val.vnull)).2
    (by decide) (Or.inl rfl) rfl
